import Mathlib

/-!
Verification development for the cosma repository.

The embedding covers the two core components and their helpers:

* `Agent` from 00_core.ipynb: construction (`__post_init__` with model-registry
  validation and system-prompt defaulting), the history trim `_prune_history`,
  and the turn operation `run_with_tools`.
* `Chain` from the chain notebook: the dataclass, the `__call__` loop,
  `validate`, and the regex helper `extract_xml`.

Mutable Python state (`chat.h`, `chain.steps`) is passed explicitly; Python
exceptions are modelled with `Except`; the external cosette completion client
is modelled by its contract from the spec (it appends the turn's messages to
the history, and a turn may fail).
-/

namespace Cosma

/-- Chat message as held in the cosette history `chat.h`: a role tag
(system, user, assistant or tool) together with its content. -/
structure Message where
  role : String
  content : String
deriving DecidableEq

/-- Number of messages in a history whose role is not `system`. -/
def countNonSystem (h : List Message) : Nat :=
  (h.filter (fun m => m.role != "system")).length

/-- Boolean check that every system message comes before every non-system
message: after dropping the leading block of system messages, no system
message remains. -/
def systemsBeforeOthers (h : List Message) : Bool :=
  (h.dropWhile (fun m => m.role == "system")).all (fun m => m.role != "system")

/-- Embedding of `Agent._prune_history` (00_core.ipynb).  Python:

    if self.memory_size is None or self.memory_size <= 0: return
    if hasattr(self.chat, 'h') and len(self.chat.h) > (self.memory_size + 1):
        system_msgs = [msg for msg in self.chat.h if msg.role == 'system']
        other_msgs = [msg for msg in self.chat.h if msg.role != 'system'][-self.memory_size:]
        self.chat.h = system_msgs + other_msgs

`none` stands for Python `None`; the chat always has its history attribute.
The Python slice `[-n:]` for `n >= 1` is `List.drop (length - n)`. -/
def pruneHistory (memorySize : Option Int) (h : List Message) : List Message :=
  match memorySize with
  | none => h
  | some n =>
    if n ≤ 0 then h
    else if (h.length : Int) > n + 1 then
      h.filter (fun m => m.role == "system") ++
        ((h.filter (fun m => m.role != "system")).drop
          ((h.filter (fun m => m.role != "system")).length - n.toNat))
    else h

/-- Embedding of the history effect of `Agent.run_with_tools` (00_core.ipynb):
it first calls `_prune_history`, then delegates to `chat.toolloop`.
Modelled from the spec: the cosette toolloop is an external collaborator whose
code is not in this repository; per the spec it appends the turn's messages
(user prompt, assistant tool-call directives, tool results, final assistant
message) to the agent's history, so it is modelled by the list `turnMessages`
it appends. -/
def runWithTools (memorySize : Option Int) (h : List Message)
    (turnMessages : List Message) : List Message :=
  pruneHistory memorySize h ++ turnMessages

/-- Error raised during `Agent.__post_init__` when the model identifier is not
in the registry.  The code raises Python `ValueError` with the model name; the
spec names this failure `InvalidModelError`. -/
inductive AgentError where
  | invalidModel (model : String)
deriving DecidableEq

/-- Default system prompt derived from the role in `Agent.__post_init__`:
the Python f-string "You are a " followed by the role and a period. -/
def defaultSystem (role : String) : String :=
  "You are a " ++ role ++ "."

/-- Python truthiness dispatch of `self.system or f"You are a {self.role}."`:
for an `Optional[str]`, both `None` and the empty string are falsy, so both
select the derived default; any non-empty string is kept. -/
def pySystemOr (system : Option String) (role : String) : String :=
  match system with
  | none => defaultSystem role
  | some s => if s = "" then defaultSystem role else s

/-- State of the cosette `Chat` session visible to this layer: the bound model
and tools, the system-prompt field `sp`, and the message history `h`. -/
structure Chat where
  model : String
  tools : List String
  sp : String
  h : List Message

/-- The `Agent` dataclass of 00_core.ipynb, with its underlying chat session.
Tools are identified by name here; they are passed through unchanged. -/
structure Agent where
  role : String
  model : String
  tools : List String
  system : Option String
  memory_size : Option Int
  chat : Chat

/-- Embedding of `Agent` construction (dataclass init plus `__post_init__`):
if the model is not in the externally supplied registry, construction fails
(Python raises; modelled with `Except.error`); otherwise a `Chat` bound to the
model and tools is created, with the system prompt set by the Python
truthiness rule `self.system or default` and an empty history. -/
def mkAgent (registry : List String) (role model : String) (tools : List String)
    (system : Option String) (memorySize : Option Int) : Except AgentError Agent :=
  if model ∈ registry then
    Except.ok
      { role := role, model := model, tools := tools, system := system,
        memory_size := memorySize,
        chat := { model := model, tools := tools,
                  sp := pySystemOr system role, h := [] } }
  else
    Except.error (AgentError.invalidModel model)

/-- One recorded pipeline step, `dict(agent=a, input=curr_input, output=result)`
from `Chain.__call__`. -/
structure ChainStep (A α : Type) where
  agent : A
  input : α
  output : α
deriving DecidableEq

/-- The `Chain` dataclass of the chain notebook: name, ordered agents,
append-only `steps` trace, advisory io type tags, and validator predicates.
The agent type `A` and the value type `α` are abstract. -/
structure Chain (A α : Type) where
  name : String
  agents : List A
  steps : List (ChainStep A α)
  input_type : String
  output_type : String
  validators : List (α → Bool)

/-- Loop body of `Chain.__call__`: run the agents in order, threading the
result, appending one step per successful agent turn.  A turn may raise
(modelled by `Except.error`), in which case the loop aborts immediately with
the steps appended so far kept (Python mutates `self.steps` in place). -/
def chainStepsFrom {A α ε : Type} (runTurn : A → α → Except ε α) :
    List A → List (ChainStep A α) → α → List (ChainStep A α) × Except ε α
  | [], steps, x => (steps, Except.ok x)
  | a :: rest, steps, x =>
    match runTurn a x with
    | Except.error e => (steps, Except.error e)
    | Except.ok r => chainStepsFrom runTurn rest (steps ++ [⟨a, x, r⟩]) r

/-- Embedding of `Chain.__call__`: executes the chain on input `x`, returning
the updated chain (its `steps` extended) and either the final result or the
first raised error.  `runTurn` stands for `Agent.run_with_tools`, whose
behavior depends on the external completion client. -/
def Chain.call {A α ε : Type} (runTurn : A → α → Except ε α) (c : Chain A α)
    (x : α) : Chain A α × Except ε α :=
  let p := chainStepsFrom runTurn c.agents c.steps x
  ({ c with steps := p.1 }, p.2)

/-- Embedding of `Chain.validate`: runs every validator on the step output and
returns the conjunction of the results; `step_num` is accepted and unused, as
in the source. -/
def Chain.validate {A α : Type} (c : Chain A α) (step_output : α)
    (step_num : Nat) : Bool :=
  (c.validators.map (fun v => v step_output)).all (fun b => b)

/-- Output-to-input threading of a recorded step list: each step's input is the
previous step's output, the first step's input is `x`, and `y` is the last
step's output (or `x` itself when there are no steps). -/
def Chained {A α : Type} : α → List (ChainStep A α) → α → Prop
  | x, [], y => y = x
  | x, s :: rest, y => s.input = x ∧ Chained s.output rest y

/-- Whitespace class used by the regex `\s` and by Python `str.strip`
(the ASCII part, which covers all inputs under consideration). -/
def pyWhitespace (c : Char) : Bool :=
  c == ' ' || c == '\t' || c == '\n' || c == '\r' || c == '\x0b' || c == '\x0c'

/-- Length of the maximal whitespace run at the front of `s`. -/
def wsMax (s : List Char) : Nat :=
  (s.takeWhile pyWhitespace).length

/-- Suffixes reachable by the greedy `\s*`: longest whitespace consumption
first, then backtracking to shorter ones. -/
def greedyWsRests (s : List Char) : List (List Char) :=
  ((List.range (wsMax s + 1)).reverse).map (fun n => s.drop n)

/-- Suffixes reachable by a greedy optional literal group `(?:lit)?`:
match the literal first if possible, then the empty alternative. -/
def optCandidates (lit : List Char) (s : List Char) : List (List Char) :=
  if lit.isPrefixOf s then [s.drop lit.length, s] else [s]

/-- Characters of the opening tag literal of the pattern. -/
def openTagOf (tag : List Char) : List Char :=
  '<' :: (tag ++ ['>'])

/-- Characters of the closing tag literal of the pattern. -/
def closeTagOf (tag : List Char) : List Char :=
  '<' :: '/' :: (tag ++ ['>'])

/-- Characters of the CDATA opening literal of the pattern. -/
def cdataOpen : List Char :=
  ['<', '!', '[', 'C', 'D', 'A', 'T', 'A', '[']

/-- Characters of the CDATA closing literal of the pattern. -/
def cdataClose : List Char :=
  [']', ']', '>']

/-- Does the pattern part after the capture group match at `s`: an optional
CDATA close (greedy), then greedy whitespace, then the closing tag literal;
anything may follow the regex match. -/
def matchTail (tag : List Char) (s : List Char) : Bool :=
  (optCandidates cdataClose s).any (fun s1 =>
    (greedyWsRests s1).any (fun s2 => (closeTagOf tag).isPrefixOf s2))

/-- Match of the pattern part after the opening tag literal with backtracking
priority: greedy whitespace, then optional CDATA open (match preferred), then
the lazy dot-all capture group (shortest first, `re.DOTALL` lets it cross
newlines), then the tail.  Returns the capture group of the first
(highest-priority) successful alternative. -/
def matchBody (tag : List Char) (s : List Char) : Option (List Char) :=
  (greedyWsRests s).findSome? (fun s1 =>
    (optCandidates cdataOpen s1).findSome? (fun s2 =>
      (List.range (s2.length + 1)).findSome? (fun k =>
        if matchTail tag (s2.drop k) then some (s2.take k) else none)))

/-- Leftmost-match search of `re.search`: try each start position from the
left; at a position the whole pattern must match there, starting with the
opening tag literal. -/
def reSearch (tag : List Char) : List Char → Option (List Char)
  | [] => none
  | c :: rest =>
    if (openTagOf tag).isPrefixOf (c :: rest) then
      match matchBody tag ((c :: rest).drop (openTagOf tag).length) with
      | some g => some g
      | none => reSearch tag rest
    else reSearch tag rest

/-- Python `str.strip` on a character list: drop whitespace from both ends. -/
def pyStrip (s : List Char) : List Char :=
  ((s.dropWhile pyWhitespace).reverse.dropWhile pyWhitespace).reverse

/-- Embedding of `extract_xml` (chain notebook).  Python:

    pattern = f'<{tag}>\s*(?:<!\[CDATA\[)?(.*?)(?:\]\]>)?\s*</{tag}>'
    match = re.search(pattern, text, re.DOTALL)
    return match.group(1).strip() if match else ""

The regex is embedded as an explicit backtracking matcher with the engine's
priority order (leftmost start, greedy `\s*` and optional groups, lazy
capture), so `reSearch` returns exactly `match.group(1)` of the first match,
and the result is its stripped text, or the empty string on no match. -/
def extract_xml (text : String) (tag : String) : String :=
  match reSearch tag.toList text.toList with
  | some g => String.mk (pyStrip g)
  | none => ""

/-- Concrete history instantiating the prune theorems: an interleaved system
message among three non-system messages. -/
def hC1 : List Message :=
  [⟨"user", "u1"⟩, ⟨"system", "s"⟩, ⟨"user", "u2"⟩, ⟨"assistant", "a1"⟩]

/-- Concrete messages appended by one modelled turn. -/
def appC1 : List Message := [⟨"user", "u3"⟩]

/-- Concrete history instantiating the prune-policy theorem. -/
def h2W : List Message :=
  [⟨"system", "s"⟩, ⟨"user", "u1"⟩, ⟨"assistant", "a1"⟩, ⟨"user", "u2"⟩]

/-- Concrete turn function for the pipeline trace witness: add the agent
number to the running value. -/
def fW3 : Nat → Nat → Except Unit Nat := fun a x => Except.ok (x + a)

/-- Concrete two-agent pipeline with a fresh trace. -/
def cW3 : Chain Nat Nat := ⟨"w3", [1, 2], [], "text", "text", []⟩

/-- The pipeline state after one invocation of the witness chain on 5. -/
def cW3r : Chain Nat Nat := (Chain.call fW3 cW3 5).1

/-- Identity turn function for the empty-pipeline witness. -/
def fW4 : Nat → Nat → Except Unit Nat := fun _ x => Except.ok x

/-- Concrete pipeline with no agents. -/
def cW4 : Chain Nat Nat := ⟨"w4", [], [], "text", "text", []⟩

/-- Turn function whose agent 0 succeeds and whose other agents raise. -/
def fW5 : Nat → Nat → Except String Nat :=
  fun a x => if a = 0 then Except.ok (x + 1) else Except.error "boom"

/-- Concrete two-agent pipeline whose second agent raises. -/
def cW5 : Chain Nat Nat := ⟨"w5", [0, 1], [], "text", "text", []⟩

/-- Turn function for the validator-independence witness. -/
def fW8 : Nat → Nat → Except Unit Nat := fun a x => Except.ok (x + a)

/-- Concrete pipeline with two validators. -/
def cW8 : Chain Nat Nat :=
  ⟨"w8", [4], [], "text", "text", [fun v => decide (0 < v), fun v => decide (v < 10)]⟩

/-- The same pipeline but with no validators. -/
def cW8b : Chain Nat Nat := ⟨"w8", [4], [], "text", "text", []⟩

/-! ## Helper lemmas -/

/-- Filtering the system messages out of the kept system block gives nothing. -/
theorem filter_nonsys_of_sys (h : List Message) :
    (h.filter (fun m => m.role == "system")).filter (fun m => m.role != "system") = [] := by
  rw [List.filter_eq_nil_iff]
  intro a ha
  have h2 := (List.mem_filter.mp ha).2
  simp only [beq_iff_eq] at h2
  simp [h2]

/-- The kept system block consists of system messages only. -/
theorem filter_sys_of_sys (h : List Message) :
    (h.filter (fun m => m.role == "system")).filter (fun m => m.role == "system") =
      h.filter (fun m => m.role == "system") := by
  rw [List.filter_eq_self]
  intro a ha
  exact (List.mem_filter.mp ha).2

/-- Every message of the kept non-system tail is a non-system message. -/
theorem mem_keptTail {h : List Message} {k : Nat} {m : Message}
    (hm : m ∈ (h.filter (fun m => m.role != "system")).drop k) :
    (m.role != "system") = true :=
  (List.mem_filter.mp (List.mem_of_mem_drop hm)).2

/-- A block of system messages followed by a block of non-system messages has
all its system messages in front. -/
theorem systemsBeforeOthers_append (a b : List Message)
    (ha : ∀ m ∈ a, (m.role == "system") = true)
    (hb : ∀ m ∈ b, (m.role != "system") = true) :
    systemsBeforeOthers (a ++ b) = true := by
  unfold systemsBeforeOthers
  rw [List.dropWhile_append_of_pos ha]
  rw [List.all_eq_true]
  intro m hm
  exact hb m ((List.dropWhile_sublist _).subset hm)

/-! ## Claim theorems -/

/-- C2: the history-trim operation is a no-op when `memorySize` is unset
(`none`) or nonpositive; when positive, it changes nothing while the total
message count is at most `memorySize + 1`, and once the total count exceeds
`memorySize + 1` it replaces the history with all system messages followed by
the last `memorySize` non-system messages, each kept group being a sublist of
the original history (relative order preserved). -/
theorem prune_history_policy (h : List Message) :
    pruneHistory none h = h ∧
    (∀ n : Int, n ≤ 0 → pruneHistory (some n) h = h) ∧
    (∀ n : Int, 0 < n → (h.length : Int) ≤ n + 1 → pruneHistory (some n) h = h) ∧
    (∀ n : Int, 0 < n → (h.length : Int) > n + 1 →
      pruneHistory (some n) h =
        h.filter (fun m => m.role == "system") ++
          ((h.filter (fun m => m.role != "system")).drop
            ((h.filter (fun m => m.role != "system")).length - n.toNat)) ∧
      List.Sublist (h.filter (fun m => m.role == "system")) h ∧
      List.Sublist ((h.filter (fun m => m.role != "system")).drop
        ((h.filter (fun m => m.role != "system")).length - n.toNat)) h) := by
  refine ⟨rfl, ?_, ?_, ?_⟩
  · intro n hn
    simp [pruneHistory, hn]
  · intro n hn hlen
    have hn' : ¬ n ≤ 0 := by omega
    have hlen' : ¬ ((h.length : Int) > n + 1) := by omega
    simp [pruneHistory, hn', hlen']
  · intro n hn hlen
    have hn' : ¬ n ≤ 0 := by omega
    refine ⟨by simp [pruneHistory, hn', hlen], List.filter_sublist h, ?_⟩
    exact (List.drop_sublist _ _).trans (List.filter_sublist h)

/-- C2 witness: the prune policy evaluated on a concrete four-message history
with an unset, a zero, a large and a small memory size. -/
theorem prune_history_policy_witness :
    pruneHistory none h2W = h2W ∧
    pruneHistory (some 0) h2W = h2W ∧
    pruneHistory (some 3) h2W = h2W ∧
    pruneHistory (some 2) h2W =
      [⟨"system", "s"⟩, ⟨"assistant", "a1"⟩, ⟨"user", "u2"⟩] := by
  have h := prune_history_policy h2W
  refine ⟨h.1, h.2.1 0 (by decide), h.2.2.1 3 (by decide) (by decide), ?_⟩
  rw [(h.2.2.2 2 (by decide) (by decide)).1]
  rfl

/-- A history that is already a block of system messages followed by a block
of at most `n` non-system messages is left unchanged by the trim. -/
theorem prune_fixed (n : Int) (hn : ¬ n ≤ 0) (a b : List Message)
    (ha : ∀ m ∈ a, (m.role == "system") = true)
    (hb : ∀ m ∈ b, (m.role != "system") = true)
    (hlen : b.length ≤ n.toNat) :
    pruneHistory (some n) (a ++ b) = a ++ b := by
  have hbs : b.filter (fun m => m.role == "system") = [] := by
    rw [List.filter_eq_nil_iff]
    intro m hm
    have hne := hb m hm
    simp only [bne_iff_ne, ne_eq] at hne
    simp [hne]
  have has : a.filter (fun m => m.role != "system") = [] := by
    rw [List.filter_eq_nil_iff]
    intro m hm
    have heq := ha m hm
    simp only [beq_iff_eq] at heq
    simp [heq]
  have h1 : (a ++ b).filter (fun m => m.role == "system") = a := by
    rw [List.filter_append, List.filter_eq_self.mpr ha, hbs, List.append_nil]
  have h2 : (a ++ b).filter (fun m => m.role != "system") = b := by
    rw [List.filter_append, has, List.filter_eq_self.mpr hb, List.nil_append]
  simp only [pruneHistory, h1, h2]
  rw [if_neg hn]
  by_cases hfire : (((a ++ b).length : Nat) : Int) > n + 1
  · rw [if_pos hfire, Nat.sub_eq_zero_of_le hlen, List.drop_zero]
  · rw [if_neg hfire]

/-- C9: the history-trim operation is idempotent: applying it twice in
succession produces the same history as applying it once, for every memory
size and history. -/
theorem prune_history_idempotent (memorySize : Option Int) (h : List Message) :
    pruneHistory memorySize (pruneHistory memorySize h) = pruneHistory memorySize h := by
  match memorySize with
  | none => rfl
  | some n =>
    by_cases hn : n ≤ 0
    · simp [pruneHistory, hn]
    · by_cases hfire : (h.length : Int) > n + 1
      · have hres : pruneHistory (some n) h =
            h.filter (fun m => m.role == "system") ++
              ((h.filter (fun m => m.role != "system")).drop
                ((h.filter (fun m => m.role != "system")).length - n.toNat)) := by
          simp [pruneHistory, hn, hfire]
        rw [hres]
        refine prune_fixed n hn _ _ ?_ ?_ ?_
        · intro m hm
          exact (List.mem_filter.mp hm).2
        · intro m hm
          exact mem_keptTail hm
        · rw [List.length_drop]
          omega
      · have hres : pruneHistory (some n) h = h := by
          simp [pruneHistory, hn, hfire]
        rw [hres, hres]

/-- Filtering the non-system messages out of a pruned-shape history returns
exactly its kept non-system tail. -/
theorem filter_nonsys_keptTail (h : List Message) (k : Nat) :
    ((h.filter (fun m => m.role == "system")) ++
        ((h.filter (fun m => m.role != "system")).drop k)).filter
      (fun m => m.role != "system") =
      (h.filter (fun m => m.role != "system")).drop k := by
  rw [List.filter_append, filter_nonsys_of_sys, List.nil_append, List.filter_eq_self]
  intro a ha
  exact mem_keptTail ha

/-- C1 counterexample: with `memorySize = 1 > 0` and an initially empty
history, one completed turn in which the external client appended only the
user prompt and the final assistant answer leaves 2 non-system messages in
the history, exceeding `memorySize`; the claimed bound fails after the turn
completes. -/
theorem run_turn_exceeds_memory :
    ¬ (countNonSystem (runWithTools (some 1) []
        [⟨"user", "q"⟩, ⟨"assistant", "r"⟩]) ≤ 1) := by decide

/-- C1 amended: for `memorySize = N > 0` the bound holds after the pre-trim at
the start of a turn, not after the turn completes: the pre-trim history has at
most N+1 non-system messages; when the trim fired (total count > N+1) it has
at most N non-system messages and every system message is placed before every
non-system message regardless of original position; the history after the
turn completes is the pre-trim history followed by whatever messages the
external client appended during the turn. -/
theorem prune_bound_then_turn (n : Int) (hn : 0 < n) (h app : List Message) :
    countNonSystem (pruneHistory (some n) h) ≤ n.toNat + 1 ∧
    ((h.length : Int) > n + 1 →
      countNonSystem (pruneHistory (some n) h) ≤ n.toNat ∧
      systemsBeforeOthers (pruneHistory (some n) h) = true) ∧
    runWithTools (some n) h app = pruneHistory (some n) h ++ app := by
  have hn' : ¬ n ≤ 0 := by omega
  by_cases hfire : (h.length : Int) > n + 1
  · have hres : pruneHistory (some n) h =
        h.filter (fun m => m.role == "system") ++
          ((h.filter (fun m => m.role != "system")).drop
            ((h.filter (fun m => m.role != "system")).length - n.toNat)) := by
      simp [pruneHistory, hn', hfire]
    have hcount : countNonSystem (pruneHistory (some n) h) ≤ n.toNat := by
      rw [hres]
      unfold countNonSystem
      rw [filter_nonsys_keptTail, List.length_drop]
      omega
    refine ⟨Nat.le_succ_of_le hcount, fun _ => ⟨hcount, ?_⟩, rfl⟩
    rw [hres]
    refine systemsBeforeOthers_append _ _ ?_ ?_
    · intro m hm
      exact (List.mem_filter.mp hm).2
    · intro m hm
      exact mem_keptTail hm
  · have hres : pruneHistory (some n) h = h := by
      simp [pruneHistory, hn', hfire]
    refine ⟨?_, fun hcontra => absurd hcontra hfire, rfl⟩
    rw [hres]
    unfold countNonSystem
    have hf := List.length_filter_le (fun m => m.role != "system") h
    omega

/-- C1 amendment witness: the pre-trim bounds evaluated on a concrete history
of four messages with an interleaved system message, memorySize 2, and a
concrete appended turn. -/
theorem prune_bound_then_turn_witness :
    countNonSystem (pruneHistory (some 2) hC1) ≤ 2 ∧
    systemsBeforeOthers (pruneHistory (some 2) hC1) = true ∧
    runWithTools (some 2) hC1 appC1 = pruneHistory (some 2) hC1 ++ appC1 := by
  have h := prune_bound_then_turn 2 (by decide) hC1 appC1
  exact ⟨(h.2.1 (by decide)).1, (h.2.1 (by decide)).2, h.2.2⟩

/-- Successful execution of the chain loop appends one chained step per agent
to the accumulated trace. -/
theorem chainStepsFrom_ok {A α ε : Type} (f : A → α → Except ε α) :
    ∀ (agents : List A) (acc : List (ChainStep A α)) (x y : α)
      (steps : List (ChainStep A α)),
      chainStepsFrom f agents acc x = (steps, Except.ok y) →
      ∃ ns, steps = acc ++ ns ∧ ns.length = agents.length ∧ Chained x ns y := by
  intro agents
  induction agents with
  | nil =>
    intro acc x y steps hrun
    simp only [chainStepsFrom, Prod.mk.injEq, Except.ok.injEq] at hrun
    exact ⟨[], by simp [hrun.1.symm], by simp, hrun.2.symm⟩
  | cons a rest ih =>
    intro acc x y steps hrun
    cases hfa : f a x with
    | error e =>
      simp only [chainStepsFrom, hfa, Prod.mk.injEq] at hrun
      exact absurd hrun.2 (by simp)
    | ok r =>
      simp only [chainStepsFrom, hfa] at hrun
      obtain ⟨ns, hsteps, hlen, hch⟩ := ih (acc ++ [⟨a, x, r⟩]) r y steps hrun
      refine ⟨⟨a, x, r⟩ :: ns, by simp [hsteps], by simp [hlen], rfl, hch⟩

/-- In a chained trace, each step's output equals the next step's input. -/
theorem chained_get_succ {A α : Type} :
    ∀ (ns : List (ChainStep A α)) (x y : α), Chained x ns y →
      ∀ i (hi : i + 1 < ns.length),
        (ns.get ⟨i, Nat.lt_of_succ_lt hi⟩).output = (ns.get ⟨i + 1, hi⟩).input := by
  intro ns
  induction ns with
  | nil =>
    intro x y _ i hi
    simp at hi
  | cons s rest ih =>
    intro x y hc i hi
    cases i with
    | zero =>
      cases rest with
      | nil => simp at hi
      | cons s2 r2 => exact hc.2.1.symm
    | succ j =>
      exact ih s.output y hc.2 j (by simpa using hi)

/-- In a nonempty chained trace the last step's output is the final value. -/
theorem chained_getLast {A α : Type} :
    ∀ (ns : List (ChainStep A α)) (x y : α), Chained x ns y →
      ∀ hne : ns ≠ [], (ns.getLast hne).output = y := by
  intro ns
  induction ns with
  | nil =>
    intro x y _ hne
    exact absurd rfl hne
  | cons s rest ih =>
    intro x y hc hne
    cases rest with
    | nil =>
      simpa [List.getLast] using hc.2.symm
    | cons s2 r2 =>
      rw [List.getLast_cons (by simp)]
      exact ih s.output y hc.2 (by simp)

/-- In a nonempty chained trace the first step's input is the start value. -/
theorem chained_head {A α : Type} (l : List (ChainStep A α)) (x y : α)
    (hc : Chained x l y) (hne : l ≠ []) : (l.head hne).input = x := by
  cases l with
  | nil => exact absurd rfl hne
  | cons s rest => exact hc.1

/-- C3: invoking a freshly constructed pipeline with a non-empty agent list,
when every turn succeeds, records exactly one step per agent, the first step's
input is the pipeline input, each step's output is the next step's input, and
the returned value is the last step's output. -/
theorem chain_call_ok_trace {A α ε : Type} (f : A → α → Except ε α)
    (c : Chain A α) (x y : α) (c2 : Chain A α)
    (hne : c.agents ≠ []) (hfresh : c.steps = [])
    (hcall : Chain.call f c x = (c2, Except.ok y)) :
    c2.steps.length = c.agents.length ∧
    c2.steps ≠ [] ∧
    (∀ h0 : c2.steps ≠ [], (c2.steps.head h0).input = x) ∧
    (∀ i (hi : i + 1 < c2.steps.length),
      (c2.steps.get ⟨i, Nat.lt_of_succ_lt hi⟩).output =
        (c2.steps.get ⟨i + 1, hi⟩).input) ∧
    (∀ h0 : c2.steps ≠ [], (c2.steps.getLast h0).output = y) := by
  have h1 := congrArg Prod.fst hcall
  have h2 := congrArg Prod.snd hcall
  simp only [Chain.call] at h1 h2
  have hsteps : c2.steps = (chainStepsFrom f c.agents c.steps x).1 := by
    rw [← h1]
  have hp : chainStepsFrom f c.agents c.steps x = (c2.steps, Except.ok y) := by
    rw [hsteps, ← h2]
  rw [hfresh] at hp
  obtain ⟨ns, hns, hlen, hch⟩ := chainStepsFrom_ok f c.agents [] x y c2.steps hp
  rw [List.nil_append] at hns
  subst hns
  have hnsne : c2.steps ≠ [] := by
    intro hnil
    rw [hnil] at hlen
    exact hne (List.length_eq_zero.mp hlen.symm)
  exact ⟨hlen, hnsne, chained_head c2.steps x y hch,
    chained_get_succ c2.steps x y hch, chained_getLast c2.steps x y hch⟩

/-- C3 witness: a fresh two-agent pipeline over natural numbers run on 5
produces a trace of length two, threaded from input 5 to result 8. -/
theorem chain_call_ok_trace_witness :
    cW3r.steps.length = 2 ∧
    cW3r.steps ≠ [] ∧
    (cW3r.steps.head (by decide)).input = 5 ∧
    (cW3r.steps.get ⟨0, by decide⟩).output = (cW3r.steps.get ⟨1, by decide⟩).input ∧
    (cW3r.steps.getLast (by decide)).output = 8 := by
  have h := chain_call_ok_trace fW3 cW3 5 8 cW3r (by decide) rfl rfl
  exact ⟨h.1, h.2.1, h.2.2.1 (by decide), h.2.2.2.1 0 (by decide), h.2.2.2.2 (by decide)⟩

/-- C4: invoking a pipeline whose agent list is empty returns the input
unchanged and leaves the step trace untouched. -/
theorem chain_call_empty_identity {A α ε : Type} (f : A → α → Except ε α)
    (c : Chain A α) (x : α) (hag : c.agents = []) :
    Chain.call f c x = (c, Except.ok x) := by
  have hsteps : chainStepsFrom f c.agents c.steps x = (c.steps, Except.ok x) := by
    rw [hag]
    rfl
  simp only [Chain.call, hsteps]

/-- C4 witness: a concrete empty pipeline invoked on 7 returns 7 and the
pipeline state is unchanged. -/
theorem chain_call_empty_identity_witness :
    Chain.call fW4 cW4 7 = (cW4, Except.ok 7) :=
  chain_call_empty_identity fW4 cW4 7 rfl

/-- C5: in a fresh two-agent pipeline whose first turn succeeds with `r` and
whose second turn raises `e`, invocation propagates the error and the trace
holds exactly the first agent's recorded step, not rolled back. -/
theorem chain_call_error_trace {A α ε : Type} (f : A → α → Except ε α)
    (c : Chain A α) (a1 a2 : A) (x r : α) (e : ε)
    (hag : c.agents = [a1, a2]) (hfresh : c.steps = [])
    (h1 : f a1 x = Except.ok r) (h2 : f a2 r = Except.error e) :
    (Chain.call f c x).2 = Except.error e ∧
    (Chain.call f c x).1.steps = [⟨a1, x, r⟩] := by
  simp [Chain.call, hag, hfresh, chainStepsFrom, h1, h2]

/-- C5 witness: a concrete pipeline whose agent 0 maps 3 to 4 and whose agent
1 raises "boom"; the invocation returns the error and one recorded step. -/
theorem chain_call_error_trace_witness :
    (Chain.call fW5 cW5 3).2 = Except.error "boom" ∧
    (Chain.call fW5 cW5 3).1.steps = [⟨0, 3, 4⟩] :=
  chain_call_error_trace fW5 cW5 0 1 3 4 "boom" rfl rfl rfl rfl

/-- C8: `validate` returns true exactly when every validator accepts the step
output, and `Chain.call` neither reads nor is affected by the validators: two
chains agreeing on agents and steps produce the same trace and result. -/
theorem chain_validate_and_independence {A α ε : Type} (f : A → α → Except ε α)
    (c c2 : Chain A α) (out x : α) (k : Nat)
    (hag : c2.agents = c.agents) (hst : c2.steps = c.steps) :
    (Chain.validate c out k = true ↔ ∀ v ∈ c.validators, v out = true) ∧
    (Chain.call f c x).1.steps = (Chain.call f c2 x).1.steps ∧
    (Chain.call f c x).2 = (Chain.call f c2 x).2 := by
  refine ⟨?_, by simp [Chain.call, hag, hst], by simp [Chain.call, hag, hst]⟩
  simp [Chain.validate, List.all_eq_true]

/-- C8 witness: validate evaluated on a chain with two concrete validators,
and call-independence between that chain and its validator-free copy. -/
theorem chain_validate_and_independence_witness :
    (Chain.validate cW8 5 0 = true ↔ ∀ v ∈ cW8.validators, v 5 = true) ∧
    (Chain.call fW8 cW8 3).1.steps = (Chain.call fW8 cW8b 3).1.steps ∧
    (Chain.call fW8 cW8 3).2 = (Chain.call fW8 cW8b 3).2 :=
  chain_validate_and_independence fW8 cW8 cW8b 5 3 0 rfl rfl

/-- The default system prompt is never the empty string. -/
theorem defaultSystem_ne_empty (role : String) : defaultSystem role ≠ "" := by
  intro hcontr
  have hlen := congrArg String.length hcontr
  simp only [defaultSystem] at hlen
  rw [String.length_append, String.length_append] at hlen
  rw [show ("You are a ").length = 10 from rfl,
      show (".").length = 1 from rfl, show ("").length = 0 from rfl] at hlen
  omega

/-- A constructed agent's active system prompt is always the Python-truthiness
selection between the explicit prompt and the derived default. -/
theorem mkAgent_sp (registry : List String) (role model : String)
    (tools : List String) (system : Option String) (memorySize : Option Int)
    (a : Agent) (hok : mkAgent registry role model tools system memorySize = Except.ok a) :
    a.chat.sp = pySystemOr system role := by
  by_cases hin : model ∈ registry
  · simp only [mkAgent, if_pos hin, Except.ok.injEq] at hok
    rw [← hok]
  · simp only [mkAgent, if_neg hin] at hok
    exact absurd hok (by simp)

/-- C6: constructing an agent whose model identifier is not in the externally
supplied registry fails with the invalid-model error, propagated to the
caller; construction with a registered model succeeds, binding the model. -/
theorem agent_model_validation (registry : List String) (role model : String)
    (tools : List String) (system : Option String) (memorySize : Option Int) :
    (model ∉ registry →
      mkAgent registry role model tools system memorySize =
        Except.error (AgentError.invalidModel model)) ∧
    (model ∈ registry →
      ∃ a, mkAgent registry role model tools system memorySize = Except.ok a ∧
        a.model = model) := by
  constructor
  · intro hnot
    simp [mkAgent, hnot]
  · intro hin
    refine ⟨{ role := role, model := model, tools := tools, system := system,
              memory_size := memorySize,
              chat := { model := model, tools := tools,
                        sp := pySystemOr system role, h := [] } }, ?_, rfl⟩
    simp [mkAgent, hin]

/-- C6 witness: with registry containing only gpt-4o, constructing with
bad-model fails with the invalid-model error and constructing with gpt-4o
succeeds. -/
theorem agent_model_validation_witness :
    mkAgent ["gpt-4o"] "tester" "bad-model" [] none (some 10) =
      Except.error (AgentError.invalidModel "bad-model") ∧
    (mkAgent ["gpt-4o"] "tester" "gpt-4o" [] none (some 10)).isOk = true := by
  constructor
  · exact (agent_model_validation ["gpt-4o"] "tester" "bad-model" [] none (some 10)).1
      (by decide)
  · obtain ⟨a, ha, -⟩ :=
      (agent_model_validation ["gpt-4o"] "tester" "gpt-4o" [] none (some 10)).2 (by decide)
    rw [ha]
    rfl

/-- C7: the XML fragment extractor returns the first matched trimmed content,
tolerates a CDATA wrapper, and returns the empty string when the tag does not
occur; with two occurrences only the first is returned. -/
theorem extract_xml_spec :
    extract_xml "<a>hello</a>" "a" = "hello" ∧
    extract_xml "<a><![CDATA[hi]]></a>" "a" = "hi" ∧
    extract_xml "<b>x</b>" "a" = "" ∧
    extract_xml "<a>x</a><a>y</a>" "a" = "x" := by
  refine ⟨?_, ?_, ?_, ?_⟩ <;> rfl

/-- C10: an agent constructed with the empty string as system prompt (falsy in
Python, like None) gets the derived default "You are a {role}." as active
system prompt, and no construction yields an empty active system prompt. -/
theorem empty_system_defaults (registry : List String) (role model : String)
    (tools : List String) (memorySize : Option Int) :
    (∀ system a, (system = some "" ∨ system = none) →
      mkAgent registry role model tools system memorySize = Except.ok a →
      a.chat.sp = defaultSystem role) ∧
    (∀ system a,
      mkAgent registry role model tools system memorySize = Except.ok a →
      a.chat.sp ≠ "") := by
  constructor
  · intro system a hfalsy hok
    have hsp := mkAgent_sp registry role model tools system memorySize a hok
    rcases hfalsy with hemp | hnone
    · rw [hsp, hemp]
      simp [pySystemOr]
    · rw [hsp, hnone]
      rfl
  · intro system a hok
    have hsp := mkAgent_sp registry role model tools system memorySize a hok
    rw [hsp]
    match system with
    | none => exact defaultSystem_ne_empty role
    | some s =>
      by_cases hs : s = ""
      · simp only [pySystemOr, if_pos hs]
        exact defaultSystem_ne_empty role
      · simp only [pySystemOr, if_neg hs]
        exact hs

/-- C10 witness: constructing with the empty string as system prompt yields
the default prompt for role tester, which is non-empty. -/
theorem empty_system_defaults_witness :
    ∃ a, mkAgent ["m1"] "tester" "m1" [] (some "") (some 10) = Except.ok a ∧
      a.chat.sp = "You are a tester." ∧ a.chat.sp ≠ "" := by
  refine ⟨_, rfl, ?_, ?_⟩
  · have h := (empty_system_defaults ["m1"] "tester" "m1" [] (some 10)).1
      (some "") _ (Or.inl rfl) rfl
    rw [h]
    rfl
  · exact (empty_system_defaults ["m1"] "tester" "m1" [] (some 10)).2 (some "") _ rfl

end Cosma
